import Mathlib

/-!
Shallow embedding of the transactional text-editing core of the helix
repository, centred on `src/helix-view/src/document.rs`.

The `Document` operations (`_apply`, `apply`, `undo`, `redo`,
`set_selection`, `load`, `save`, `versioned_identifier`) are translated
from `document.rs`.  The `helix-core` crate (Rope, ChangeSet, Transaction,
State, Selection, History) and the `helix-lsp` client are repository code
that is not under `src/`; those pieces are modelled from the spec, as
marked on each definition.

External collaborators (the incremental parser, the language-server
notification delivery, the filesystem) are modelled as oracle inputs: a
`Collab` record carries the success/failure outcome of the parser update
and of the notification delivery for one call, and an `FS` record carries
the filesystem's answers.  A Rust panic / process abort is modelled by an
operation returning `none`: the caller observes no return value at all.
-/

namespace Helix

/-- Modelled from the spec: Text is "an ordered, immutable-per-version
sequence of Unicode scalar values" (helix-core `Rope`); the persistence /
chunking performance aspects are not observable here, so a list of
characters is a faithful value-level model. -/
abbrev Rope := List Char

/-- Modelled from the spec: ChangeSet operations are
`{Retain(n), Insert(s), Delete(n)}`.  The spec states the result of
composition "must be independent of whether an implementation merges
adjacent operations eagerly, provided the externally observable mapping is
identical", so we normalise to unit-granularity operations: `Retain n` is
`n` copies of `ret`, `Insert s` is one `ins c` per character, `Delete n`
is `n` copies of `del`. -/
inductive UOp where
  | ret : UOp
  | del : UOp
  | ins : Char → UOp
deriving DecidableEq, Repr

/-- Modelled from the spec: a ChangeSet is a "sequence of operations ...
consuming exactly `len_before` positions of the original Text".  As in
helix-core, the original length is stored in the `len` field, so that the
empty ChangeSet over a text of length `n` is a defined value. -/
structure ChangeSet where
  changes : List UOp
  len : Nat
deriving DecidableEq, Repr

/-- Modelled from the spec: `ChangeSet::new(doc)` is the empty (no-op)
ChangeSet over `doc`. -/
def ChangeSet.new (doc : Rope) : ChangeSet :=
  { changes := [], len := doc.length }

/-- Modelled from the spec: the empty ChangeSet "is a defined value
distinguishable from never constructed"; emptiness is having no
operations. -/
def ChangeSet.is_empty (cs : ChangeSet) : Bool :=
  cs.changes.isEmpty

/-- Helper for `compOps`: splits an operation list into its maximal
leading run of insertions and the remainder (whose head, if any, is a
retain or a delete). -/
def stripIns : List UOp → List UOp × List UOp
  | .ins c :: b =>
    let p := stripIns b
    (.ins c :: p.1, p.2)
  | b => ([], b)

/-- Modelled from the spec: composition of the operation lists of two
sequential ChangeSets (before→mid, mid→after) into one (before→after).
Deletions of the first edit pass through first, then insertions of the
second; a retained position feeds the second edit's retain/delete; an
inserted character retained by the second edit survives, one deleted by
it disappears.  Leftover operations on either side are kept (they only
arise when the length side-condition `a.len_after = b.len_before` fails,
which the spec calls a requirement).  The recursion is structural on the
first list, with `stripIns` emitting the second edit's pending
insertions in one step; its last branch in each arm is unreachable,
since `stripIns` leaves no leading insertion. -/
def compOps : List UOp → List UOp → List UOp
  | [], b => b
  | .del :: a, b => .del :: compOps a b
  | .ret :: a, b =>
    let p := stripIns b
    match p.2 with
    | [] => p.1 ++ .ret :: a
    | .ret :: b2 => p.1 ++ .ret :: compOps a b2
    | .del :: b2 => p.1 ++ .del :: compOps a b2
    | .ins c2 :: b2 => p.1 ++ .ins c2 :: compOps a b2
  | .ins c :: a, b =>
    let p := stripIns b
    match p.2 with
    | [] => p.1 ++ .ins c :: a
    | .ret :: b2 => p.1 ++ .ins c :: compOps a b2
    | .del :: b2 => p.1 ++ compOps a b2
    | .ins c2 :: b2 => p.1 ++ .ins c2 :: compOps a b2

/-- Modelled from the spec: `compose(self, other)` merges two sequential
edits into one; the result describes an edit over `self`'s original
length. -/
def ChangeSet.compose (a b : ChangeSet) : ChangeSet :=
  { changes := compOps a.changes b.changes, len := a.len }

/-- Modelled from the spec: applying the operations of a ChangeSet to a
text: retain keeps a character, delete drops one, insert emits one.  Text
beyond the operations is kept unchanged (so the empty ChangeSet is the
identity); retain/delete past the end of the text consume nothing (never
reached when `len_before` matches the text). -/
def applyOps : List UOp → Rope → Rope
  | [], text => text
  | .ret :: ops, [] => applyOps ops []
  | .ret :: ops, c :: text => c :: applyOps ops text
  | .del :: ops, [] => applyOps ops []
  | .del :: ops, _ :: text => applyOps ops text
  | .ins c :: ops, text => c :: applyOps ops text

/-- Modelled from the spec: `map_pos` translates an offset before the
edit to one after it.  Bias choice (part of the type's contract per the
spec): an insertion at or before the position shifts it right, a deletion
covering it collapses it to the deletion's start. -/
def mapPosOps : List UOp → Nat → Nat
  | [], pos => pos
  | .ret :: ops, pos => if pos = 0 then 0 else mapPosOps ops (pos - 1) + 1
  | .del :: ops, pos => if pos = 0 then 0 else mapPosOps ops (pos - 1)
  | .ins _ :: ops, pos => mapPosOps ops pos + 1

/-- Modelled from the spec: a (anchor, head) range over Text offsets. -/
structure Range where
  anchor : Nat
  head : Nat
deriving DecidableEq, Repr

/-- Modelled from the spec: a Selection is an ordered set of
(anchor, head) ranges over Text offsets. -/
structure Selection where
  ranges : List Range
deriving DecidableEq, Repr

/-- Modelled from the spec: a single-range selection. -/
def Selection.single (anchor head : Nat) : Selection :=
  { ranges := [{ anchor := anchor, head := head }] }

/-- Modelled from the spec: mapping a Selection through a ChangeSet maps
each range's endpoints through `map_pos`. -/
def Selection.mapThrough (sel : Selection) (cs : ChangeSet) : Selection :=
  { ranges := sel.ranges.map fun r =>
      { anchor := mapPosOps cs.changes r.anchor
        head := mapPosOps cs.changes r.head } }

/-- The spec invariant on a State: "Selection's ranges are valid offsets
into Text at all times". -/
def Selection.validFor (sel : Selection) (text : Rope) : Prop :=
  ∀ r ∈ sel.ranges, r.anchor ≤ text.length ∧ r.head ≤ text.length

instance (sel : Selection) (text : Rope) : Decidable (sel.validFor text) :=
  inferInstanceAs (Decidable (∀ r ∈ sel.ranges, _ ∧ _))

/-- Modelled from the spec: State pairs one Text snapshot with one
Selection. -/
structure State where
  doc : Rope
  selection : Selection
deriving DecidableEq, Repr

/-- Modelled from the spec: a fresh State places a single collapsed
selection at offset 0. -/
def State.new (doc : Rope) : State :=
  { doc := doc, selection := Selection.single 0 0 }

/-- Modelled from the spec: a Transaction is "a ChangeSet plus an
optional resulting Selection". -/
structure Transaction where
  changes : ChangeSet
  selection : Option Selection
deriving DecidableEq, Repr

/-- Modelled from the spec: `Transaction.apply(state)` "validates
`len_before` equals `state.text.len()`; if mismatched, reports a
validation failure and performs no mutation".  On success it rewrites the
text and "replaces `state.selection` with the Transaction's resulting
Selection if present, else maps the prior Selection through the
ChangeSet".  `none` is the validation failure (the caller's state is left
untouched). -/
def Transaction.apply (t : Transaction) (s : State) : Option State :=
  if t.changes.len = s.doc.length then
    some { doc := applyOps t.changes.changes s.doc
           selection :=
             match t.selection with
             | some sel => sel
             | none => s.selection.mapThrough t.changes }
  else
    none

/-- Modelled from the spec: one history entry records the forward
Transaction and its inverse. -/
structure Revision where
  transaction : Transaction
  inversion : Transaction
deriving DecidableEq, Repr

/-- Modelled from the spec: History is two stacks (undo-available,
redo-available). -/
structure History where
  undos : List Revision
  redos : List Revision
deriving DecidableEq, Repr

/-- Modelled from the spec: a fresh History has empty stacks. -/
def History.default : History :=
  { undos := [], redos := [] }

/-- Modelled from the spec: `undo()` pops from the undo stack, pushes the
revision onto the redo stack and returns the inverse transaction to
apply; on an empty stack it returns "nothing to do" (`none`), never an
error. -/
def History.undo (h : History) : Option (Transaction × History) :=
  match h.undos with
  | [] => none
  | rev :: rest => some (rev.inversion, { undos := rest, redos := rev :: h.redos })

/-- Modelled from the spec: `redo()` is the mirror of `undo()`. -/
def History.redo (h : History) : Option (Transaction × History) :=
  match h.redos with
  | [] => none
  | rev :: rest => some (rev.transaction, { undos := rev :: h.undos, redos := rest })

/-- `Mode` from document.rs: Normal, Insert, Goto. -/
inductive Mode where
  | Normal : Mode
  | Insert : Mode
  | Goto : Mode
deriving DecidableEq, Repr

/-- Modelled from the spec: a diagnostic is an opaque position-stamped
message; no Document operation in document.rs inspects it. -/
structure Diagnostic where
  pos : Nat
  message : String
deriving DecidableEq, Repr

/-- `Document` from document.rs.  The tree-sitter `Syntax` value is
modelled by the Text version the tree is currently keyed to (`Option
Rope`, field `synTree` for the source's `syntax` field); the
`Option<Arc<helix_lsp::Client>>` handle carries no observable state
beyond its presence, so it is `Option Unit`.  `path` is an abstract
string. -/
structure Document where
  state : State
  path : Option String
  mode : Mode
  restore_cursor : Bool
  synTree : Option Rope
  language : Option String
  changes : ChangeSet
  old_state : Option State
  history : History
  version : Int
  diagnostics : List Diagnostic
  language_server : Option Unit
deriving DecidableEq, Repr

/-- `Document::new` from document.rs. -/
def Document.new (state : State) : Document :=
  { state := state
    path := none
    mode := Mode.Normal
    restore_cursor := false
    synTree := none
    language := none
    changes := ChangeSet.new state.doc
    old_state := none
    history := History.default
    version := 0
    diagnostics := []
    language_server := none }

/-- `Document::text` from document.rs. -/
def Document.text (doc : Document) : Rope :=
  doc.state.doc

/-- `Document::selection` from document.rs. -/
def Document.selection (doc : Document) : Selection :=
  doc.state.selection

/-- `Document::set_selection` from document.rs: stores the given
Selection verbatim (`self.state.selection = selection;`), with no
validation against the current Text. -/
def Document.set_selection (doc : Document) (selection : Selection) : Document :=
  { doc with state := { doc.state with selection := selection } }

/-- Outcomes of the external collaborators for one `_apply` call: whether
the incremental parser update succeeds and whether the language-server
notification delivery is acknowledged. -/
structure Collab where
  synOk : Bool
  lspOk : Bool
deriving DecidableEq, Repr

/-- Observable side effects of one `_apply` call: an incremental
syntax-tree update was performed, or a `textDocument/didChange`
notification carrying the given version was delivered. -/
inductive Effect where
  | synUpdate : Effect
  | lspNotify : Int → Effect
deriving DecidableEq, Repr

/-- The syntax-update step of `Document::_apply` (document.rs lines
172-177): when a tree is attached, `syntax.update(&old_doc, &new_doc,
changes).unwrap()` — on parser failure the `unwrap` panics (`none`); on
success the tree is keyed to the new text. -/
def synStep (env : Collab) (doc : Document) : Option (Document × List Effect) :=
  match doc.synTree with
  | none => some (doc, [])
  | some _ =>
    if env.synOk then
      some ({ doc with synTree := some doc.state.doc }, [Effect.synUpdate])
    else
      none

/-- `Document::url` from document.rs:
`self.path().map(|path| Url::from_file_path(path).unwrap())` — the URL
exists exactly when a path is set (the URL itself is abstracted to the
path string). -/
def Document.url (doc : Document) : Option String :=
  doc.path

/-- `Document::versioned_identifier` from document.rs:
`lsp::VersionedTextDocumentIdentifier::new(self.url().unwrap(), self.version)`
— the `unwrap` panics (`none`) on a document without a path; otherwise
the identifier pairs the URL with the current `version`. -/
def Document.versioned_identifier (doc : Document) : Option (String × Int) :=
  match doc.url with
  | none => none
  | some u => some (u, doc.version)

/-- The notification step of `Document::_apply` (document.rs lines
182-190): when a language server is attached, the notification arguments
are built first — `versioned_identifier()` panics (`none`) on a pathless
document before anything is sent — then the change notification is
delivered and `smol::block_on(notify).expect(...)` panics (`none`) when
delivery is not acknowledged. -/
def lspStep (env : Collab) (doc : Document) : Option (List Effect) :=
  match doc.language_server with
  | none => some []
  | some _ =>
    match doc.versioned_identifier with
    | none => none
    | some _ =>
      if env.lspOk then
        some [Effect.lspNotify doc.version]
      else
        none

/-- `Document::_apply` from document.rs: runs `Transaction.apply` on the
State (a failure leaves the State untouched and yields `success =
false`), then — gated only on the ChangeSet being non-empty, not on
success — performs the syntax-tree update and emits the language-server
notification.  `none` models a panic of either step aborting the call. -/
def Document._apply (env : Collab) (doc : Document) (t : Transaction) :
    Option (Document × Bool × List Effect) :=
  let res := t.apply doc.state
  let success := res.isSome
  let doc1 : Document := { doc with state := res.getD doc.state }
  if t.changes.is_empty then
    some (doc1, success, [])
  else
    match synStep env doc1 with
    | none => none
    | some (doc2, effs1) =>
      match lspStep env doc2 with
      | none => none
      | some effs2 => some (doc2, success, effs1 ++ effs2)

/-- `Document::apply` from document.rs: snapshots `old_state` when this
is the first change since the last commit (pending accumulator empty and
transaction non-empty), delegates to `_apply`, then — again gated only on
the ChangeSet being non-empty — composes the ChangeSet into the pending
accumulator via `take_with`. -/
def Document.apply (env : Collab) (doc : Document) (t : Transaction) :
    Option (Document × Bool × List Effect) :=
  let doc0 : Document :=
    if doc.changes.is_empty && !t.changes.is_empty then
      { doc with old_state := some doc.state }
    else
      doc
  match doc0._apply env t with
  | none => none
  | some (d, success, effs) =>
    let d1 : Document :=
      if !t.changes.is_empty then
        { d with changes := d.changes.compose t.changes }
      else
        d
    some (d1, success, effs)

/-- `Document::undo` from document.rs: if History yields a transaction,
bump `version`, run `_apply`, then reset the pending accumulator to the
empty ChangeSet over the current text; otherwise return `false` having
changed nothing. -/
def Document.undo (env : Collab) (doc : Document) :
    Option (Document × Bool × List Effect) :=
  match doc.history.undo with
  | none => some (doc, false, [])
  | some (t, h) =>
    let doc1 : Document := { doc with history := h, version := doc.version + 1 }
    match doc1._apply env t with
    | none => none
    | some (d, success, effs) =>
      some ({ d with changes := ChangeSet.new d.state.doc }, success, effs)

/-- `Document::redo` from document.rs: mirror of `undo`. -/
def Document.redo (env : Collab) (doc : Document) :
    Option (Document × Bool × List Effect) :=
  match doc.history.redo with
  | none => some (doc, false, [])
  | some (t, h) =>
    let doc1 : Document := { doc with history := h, version := doc.version + 1 }
    match doc1._apply env t with
    | none => none
    | some (d, success, effs) =>
      some ({ d with changes := ChangeSet.new d.state.doc }, success, effs)

/-- Filesystem and language-loader oracles for `Document::load`:
`cwd` answers `env::current_dir()`, `read` answers opening and reading a
file into a Rope, `canonical` answers `fs::canonicalize`, and
`langScopeFor` answers `LOADER.language_config_for_file_name` with the
language's scope name.  `none` is the corresponding failure. -/
structure FS where
  cwd : Option String
  read : String → Option Rope
  canonical : String → Option String
  langScopeFor : String → Option String

/-- `Document::load` from document.rs: `env::current_dir()?`, read the
file into a Rope (`?`), build a fresh Document, attach a syntax tree and
scope name when the loader knows the file's language, then set `path` to
`Some(fs::canonicalize(path)?)` — a canonicalisation failure aborts the
whole load with an error.  (The `highlight_config(scopes)` unwraps are
assumed to succeed; the `scopes` argument is otherwise unused here.) -/
def Document.load (fs : FS) (path : String) (_scopes : List String) :
    Except Unit Document :=
  match fs.cwd with
  | none => Except.error ()
  | some _ =>
    match fs.read path with
    | none => Except.error ()
    | some text =>
      let doc := Document.new (State.new text)
      let doc :=
        match fs.langScopeFor path with
        | some scope => { doc with synTree := some text, language := some scope }
        | none => doc
      match fs.canonical path with
      | none => Except.error ()
      | some abs => Except.ok { doc with path := some abs }

/-- The snapshot a save operation moves into its background future: the
Text clone and the resolved path captured at request time. -/
structure SaveJob where
  text : Rope
  path : String
deriving DecidableEq, Repr

/-- `Document::save` from document.rs: clones text and path into the
future.  `self.path.clone().expect("Can't save with no path set!")`
panics when no path is set — modelled as `none`; with a path set, the
returned job owns the snapshot. -/
def Document.save (doc : Document) : Option SaveJob :=
  match doc.path with
  | none => none
  | some p => some { text := doc.state.doc, path := p }

/-! ### Concrete instances used by witnesses and counterexamples -/

/-- Collaborator outcomes: parser succeeds, delivery acknowledged. -/
def exEnv : Collab := { synOk := true, lspOk := true }

/-- A resolved path for the example documents that talk to a language
server (required: `versioned_identifier` panics on a pathless
document). -/
def docPath : String := "/tmp/doc.txt"

/-- The text "hello". -/
def helloRope : Rope := ['h', 'e', 'l', 'l', 'o']

/-- A fresh one-character document over "a". -/
def aDoc : Document := Document.new (State.new ['a'])

/-- The transaction inserting "b" at offset 1 of a length-1 text. -/
def exIns : Transaction :=
  { changes := { changes := [UOp.ret, UOp.ins 'b'], len := 1 }, selection := none }

/-- The transaction deleting offset 1 from a length-2 text (the inverse
of `exIns` over "a"). -/
def exDel : Transaction :=
  { changes := { changes := [UOp.ret, UOp.del], len := 2 }, selection := none }

/-- A document over "hello" with a resolved path and a language server
attached. -/
def c1Doc : Document :=
  { Document.new (State.new helloRope) with
      path := some docPath
      language_server := some () }

/-- A non-empty transaction whose `len_before` (3) disagrees with the
length of "hello" (5). -/
def c1Bad : Transaction :=
  { changes := { changes := [UOp.ret, UOp.ret, UOp.ret], len := 3 }, selection := none }

/-- What `apply` leaves behind for `c1Doc`/`c1Bad`: text and selection
untouched, but `old_state` snapshotted and the mismatched ChangeSet
composed into the pending accumulator. -/
def c1Result : Document :=
  { c1Doc with
      old_state := some c1Doc.state
      changes := { changes := [UOp.ret, UOp.ret, UOp.ret], len := 5 } }

/-- A fresh document over "a" with a tree-sitter tree attached. -/
def c2Doc : Document :=
  { Document.new (State.new ['a']) with synTree := some ['a'] }

/-- A document over "a" with a resolved path and a language server
attached (the path ensures the notification arguments build fine, so the
panic below comes from the unacknowledged delivery itself). -/
def c3Doc : Document :=
  { Document.new (State.new ['a']) with
      path := some docPath
      language_server := some () }

/-- A fresh one-character document over "a" (selection at offset 0,
valid). -/
def c7Doc : Document := Document.new (State.new ['a'])

/-- A history entry: forward `exIns`, inverse `exDel`. -/
def exRev : Revision := { transaction := exIns, inversion := exDel }

/-- A document over "ab" whose History offers both an undo and a redo. -/
def histDoc : Document :=
  { Document.new (State.new ['a', 'b']) with
      history := { undos := [exRev], redos := [exRev] } }

/-- The History left after popping `histDoc`'s undo stack. -/
def uH : History := { undos := [], redos := [exRev, exRev] }

/-- The History left after popping `histDoc`'s redo stack. -/
def rH : History := { undos := [exRev, exRev], redos := [] }

/-- The result of `histDoc.undo`: text back to "a", version bumped to 1,
accumulator reset to the empty ChangeSet over the new text. -/
def uRes : Document × Bool × List Effect :=
  ({ state := { doc := ['a'], selection := Selection.single 0 0 }
     path := none
     mode := Mode.Normal
     restore_cursor := false
     synTree := none
     language := none
     changes := { changes := [], len := 1 }
     old_state := none
     history := uH
     version := 1
     diagnostics := []
     language_server := none }, true, [])

/-- The result of `histDoc.redo`: the replayed transaction fails
validation (its `len_before` is 1, the text has length 2), so the text
stands; version is bumped and the accumulator reset all the same. -/
def rRes : Document × Bool × List Effect :=
  ({ state := { doc := ['a', 'b'], selection := Selection.single 0 0 }
     path := none
     mode := Mode.Normal
     restore_cursor := false
     synTree := none
     language := none
     changes := { changes := [], len := 2 }
     old_state := none
     history := rH
     version := 1
     diagnostics := []
     language_server := none }, false, [])

/-- The document `apply exEnv aDoc exIns` produces: text "ab", pre-edit
state snapshotted, the insertion composed into the accumulator. -/
def d1Doc : Document :=
  { state := { doc := ['a', 'b'], selection := Selection.single 0 0 }
    path := none
    mode := Mode.Normal
    restore_cursor := false
    synTree := none
    language := none
    changes := { changes := [UOp.ret, UOp.ins 'b'], len := 1 }
    old_state := some { doc := ['a'], selection := Selection.single 0 0 }
    history := History.default
    version := 0
    diagnostics := []
    language_server := none }

/-- The document a second `apply` of `exIns` (now failing validation)
leaves: the accumulator still composes the mismatched ChangeSet. -/
def d2Doc : Document :=
  { d1Doc with
      changes := { changes := [UOp.ret, UOp.ins 'b', UOp.ins 'b'], len := 1 } }

/-- The relative path handed to the example load. -/
def relPath : String := "f.txt"

/-- The canonical absolute path the example filesystem answers with. -/
def absPath : String := "/abs/f.txt"

/-- The example working directory. -/
def cwdPath : String := "/cwd"

/-- A filesystem oracle on which every load step succeeds. -/
def exFS : FS :=
  { cwd := some cwdPath
    read := fun _ => some ['h', 'i']
    canonical := fun _ => some absPath
    langScopeFor := fun _ => none }

/-- The document `load exFS "f.txt" []` produces. -/
def exLoaded : Document :=
  { Document.new (State.new ['h', 'i']) with path := some absPath }

/-! ### Frame lemmas about the steps of `_apply` -/

/-- A successful syntax step changes at most the tree: every other field
is untouched, and it never emits a notification effect. -/
theorem synStep_frame (env : Collab) (d d' : Document) (e : List Effect)
    (h : synStep env d = some (d', e)) :
    d'.state = d.state ∧ d'.changes = d.changes ∧ d'.old_state = d.old_state ∧
    d'.version = d.version ∧ d'.history = d.history ∧
    d'.language_server = d.language_server ∧ d'.path = d.path ∧
    (e = [] ∨ e = [Effect.synUpdate]) := by
  unfold synStep at h
  cases hsyn : d.synTree with
  | none =>
    rw [hsyn] at h
    simp only [Option.some.injEq, Prod.mk.injEq] at h
    obtain ⟨h1, h2⟩ := h
    subst h1; subst h2
    exact ⟨rfl, rfl, rfl, rfl, rfl, rfl, rfl, Or.inl rfl⟩
  | some tree =>
    rw [hsyn] at h
    cases hok : env.synOk with
    | false => rw [hok] at h; simp at h
    | true =>
      rw [hok] at h
      simp only [if_true, Option.some.injEq, Prod.mk.injEq] at h
      obtain ⟨h1, h2⟩ := h
      subst h1; subst h2
      exact ⟨rfl, rfl, rfl, rfl, rfl, rfl, rfl, Or.inr rfl⟩

/-- A successful notification step emits exactly the notification for the
document's current version when a server is attached (which, on a
returning call, implies the document has a path — a pathless document
panics in `versioned_identifier` instead), and nothing otherwise. -/
theorem lspStep_spec (env : Collab) (d : Document) (e : List Effect)
    (h : lspStep env d = some e) :
    (∀ v, Effect.lspNotify v ∈ e → v = d.version) ∧
    (d.language_server.isSome → Effect.lspNotify d.version ∈ e) := by
  unfold lspStep at h
  cases hls : d.language_server with
  | none =>
    rw [hls] at h
    simp only [Option.some.injEq] at h
    subst h
    refine ⟨by simp, by simp [hls]⟩
  | some u =>
    rw [hls] at h
    cases hvi : d.versioned_identifier with
    | none => rw [hvi] at h; simp at h
    | some vi =>
      rw [hvi] at h
      dsimp only at h
      cases hok : env.lspOk with
      | false => rw [hok] at h; simp at h
      | true =>
        rw [hok] at h
        simp only [if_true, Option.some.injEq] at h
        subst h
        refine ⟨by simp, by simp⟩

/-- Characterisation of a returning (non-panicking) `_apply` call: the
State is rewritten exactly when the transaction validates, the pending
accumulator, `old_state`, `version`, History and server handle are
untouched, and every notification effect carries the document's current
version (delivered exactly when a server is attached and the ChangeSet is
non-empty). -/
theorem applyInner_spec (env : Collab) (doc : Document) (t : Transaction)
    (d : Document) (s : Bool) (effs : List Effect)
    (h : Document._apply env doc t = some (d, s, effs)) :
    d.changes = doc.changes ∧ d.old_state = doc.old_state ∧
    d.version = doc.version ∧ d.history = doc.history ∧
    d.language_server = doc.language_server ∧
    s = (t.apply doc.state).isSome ∧
    d.state = (t.apply doc.state).getD doc.state ∧
    (∀ v, Effect.lspNotify v ∈ effs → v = doc.version) ∧
    (t.changes.is_empty = false → doc.language_server.isSome →
      Effect.lspNotify doc.version ∈ effs) := by
  unfold Document._apply at h
  cases hemp : t.changes.is_empty with
  | true =>
    rw [hemp] at h
    simp only [if_true, Option.some.injEq, Prod.mk.injEq] at h
    obtain ⟨h1, h2, h3⟩ := h
    subst h1; subst h2; subst h3
    refine ⟨rfl, rfl, rfl, rfl, rfl, rfl, rfl, by simp, by simp⟩
  | false =>
    rw [hemp] at h
    simp only [Bool.false_eq_true, if_false] at h
    cases hsyn : synStep env { doc with state := (t.apply doc.state).getD doc.state } with
    | none => rw [hsyn] at h; simp at h
    | some pr =>
      obtain ⟨doc2, effs1⟩ := pr
      rw [hsyn] at h
      dsimp only at h
      cases hlsp : lspStep env doc2 with
      | none => rw [hlsp] at h; simp at h
      | some effs2 =>
        rw [hlsp] at h
        simp only [Option.some.injEq, Prod.mk.injEq] at h
        obtain ⟨h1, h2, h3⟩ := h
        subst h1; subst h2; subst h3
        obtain ⟨f1, f2, f3, f4, f5, f6, fpath, f7⟩ := synStep_frame env _ doc2 effs1 hsyn
        obtain ⟨l1, l2⟩ := lspStep_spec env doc2 effs2 hlsp
        refine ⟨by rw [f2], by rw [f3], by rw [f4], by rw [f5], by rw [f6],
          rfl, by rw [f1], ?_, ?_⟩
        · intro v hv
          rcases List.mem_append.mp hv with hv1 | hv2
          · cases f7 with
            | inl he => simp [he] at hv1
            | inr he => simp [he] at hv1
          · have := l1 v hv2
            rw [this, f4]
        · intro hne hserver
          refine List.mem_append.mpr (Or.inr ?_)
          have : doc2.language_server.isSome := by rw [f6]; exact hserver
          have hm := l2 this
          rw [f4] at hm
          exact hm

/-- Characterisation of a returning (non-panicking) `apply` call: the
pending accumulator is composed with the transaction's ChangeSet exactly
when the latter is non-empty, `old_state` is snapshotted exactly when
this is the first change since the last commit, and the rest behaves as
`_apply` does — all of it regardless of whether the transaction
validated. -/
theorem apply_spec (env : Collab) (doc : Document) (t : Transaction)
    (d : Document) (s : Bool) (effs : List Effect)
    (h : Document.apply env doc t = some (d, s, effs)) :
    d.changes =
      (if t.changes.is_empty then doc.changes else doc.changes.compose t.changes) ∧
    d.old_state =
      (if doc.changes.is_empty && !t.changes.is_empty then some doc.state
       else doc.old_state) ∧
    d.version = doc.version ∧ d.history = doc.history ∧
    d.language_server = doc.language_server ∧
    s = (t.apply doc.state).isSome ∧
    d.state = (t.apply doc.state).getD doc.state ∧
    (∀ v, Effect.lspNotify v ∈ effs → v = doc.version) ∧
    (t.changes.is_empty = false → doc.language_server.isSome →
      Effect.lspNotify doc.version ∈ effs) := by
  unfold Document.apply at h
  cases hemp : t.changes.is_empty with
  | true =>
    rw [hemp] at h
    simp only [Bool.not_true, Bool.and_false, Bool.false_eq_true, if_false] at h
    cases hap : Document._apply env doc t with
    | none => rw [hap] at h; simp at h
    | some r =>
      obtain ⟨d0, s0, e0⟩ := r
      rw [hap] at h
      dsimp only at h
      simp only [Option.some.injEq, Prod.mk.injEq] at h
      obtain ⟨h1, h2, h3⟩ := h
      subst h1; subst h2; subst h3
      obtain ⟨f1, f2, f3, f4, f5, f6, f7, f8, f9⟩ :=
        applyInner_spec env doc t d0 s0 e0 hap
      refine ⟨by simpa using f1, by simpa using f2, f3, f4, f5, f6, f7, f8,
        fun hx => Bool.noConfusion hx⟩
  | false =>
    rw [hemp] at h
    simp only [Bool.not_false, Bool.and_true, if_true] at h
    cases hacc : doc.changes.is_empty with
    | true =>
      rw [hacc] at h
      simp only [if_true] at h
      cases hap : Document._apply env { doc with old_state := some doc.state } t with
      | none => rw [hap] at h; simp at h
      | some r =>
        obtain ⟨d0, s0, e0⟩ := r
        rw [hap] at h
        dsimp only at h
        simp only [Option.some.injEq, Prod.mk.injEq] at h
        obtain ⟨h1, h2, h3⟩ := h
        subst h1; subst h2; subst h3
        obtain ⟨f1, f2, f3, f4, f5, f6, f7, f8, f9⟩ :=
          applyInner_spec env _ t d0 s0 e0 hap
        dsimp only at f1 f2 f3 f4 f5 f6 f7 f8 f9
        refine ⟨by simp [f1], by simp [f2], by simp [f3], by simp [f4], by simp [f5],
          f6, by simp [f7], f8, fun _ => f9 hemp⟩
    | false =>
      rw [hacc] at h
      simp only [Bool.false_eq_true, if_false] at h
      cases hap : Document._apply env doc t with
      | none => rw [hap] at h; simp at h
      | some r =>
        obtain ⟨d0, s0, e0⟩ := r
        rw [hap] at h
        dsimp only at h
        simp only [Option.some.injEq, Prod.mk.injEq] at h
        obtain ⟨h1, h2, h3⟩ := h
        subst h1; subst h2; subst h3
        obtain ⟨f1, f2, f3, f4, f5, f6, f7, f8, f9⟩ :=
          applyInner_spec env doc t d0 s0 e0 hap
        refine ⟨by simp [f1], by simp [f2], by simp [f3], by simp [f4], by simp [f5],
          f6, by simp [f7], f8, fun _ => f9 hemp⟩

/-- Characterisation of a returning `undo` call when History yields a
transaction: version bumped by one, the transaction run through the
`_apply` path, the pending accumulator reset to the empty ChangeSet over
the resulting text. -/
theorem undo_spec (env : Collab) (doc : Document) (t : Transaction) (h' : History)
    (hu : doc.history.undo = some (t, h'))
    (r : Document × Bool × List Effect) (hr : Document.undo env doc = some r) :
    r.1.version = doc.version + 1 ∧
    r.1.changes = ChangeSet.new r.1.state.doc ∧
    ∃ d0, Document._apply env { doc with history := h', version := doc.version + 1 } t
        = some (d0, r.2.1, r.2.2) ∧
      r.1 = { d0 with changes := ChangeSet.new d0.state.doc } := by
  unfold Document.undo at hr
  rw [hu] at hr
  dsimp only at hr
  cases hap : Document._apply env { doc with history := h', version := doc.version + 1 } t with
  | none => rw [hap] at hr; simp at hr
  | some r0 =>
    obtain ⟨d0, s0, e0⟩ := r0
    rw [hap] at hr
    dsimp only at hr
    simp only [Option.some.injEq] at hr
    subst hr
    obtain ⟨f1, f2, f3, f4, f5, f6, f7, f8, f9⟩ :=
      applyInner_spec env _ t d0 s0 e0 hap
    dsimp only at f3
    exact ⟨by dsimp only; rw [f3], rfl, ⟨d0, rfl, rfl⟩⟩

/-- Mirror of `undo_spec` for `redo`. -/
theorem redo_spec (env : Collab) (doc : Document) (t : Transaction) (h' : History)
    (hu : doc.history.redo = some (t, h'))
    (r : Document × Bool × List Effect) (hr : Document.redo env doc = some r) :
    r.1.version = doc.version + 1 ∧
    r.1.changes = ChangeSet.new r.1.state.doc ∧
    ∃ d0, Document._apply env { doc with history := h', version := doc.version + 1 } t
        = some (d0, r.2.1, r.2.2) ∧
      r.1 = { d0 with changes := ChangeSet.new d0.state.doc } := by
  unfold Document.redo at hr
  rw [hu] at hr
  dsimp only at hr
  cases hap : Document._apply env { doc with history := h', version := doc.version + 1 } t with
  | none => rw [hap] at hr; simp at hr
  | some r0 =>
    obtain ⟨d0, s0, e0⟩ := r0
    rw [hap] at hr
    dsimp only at hr
    simp only [Option.some.injEq] at hr
    subst hr
    obtain ⟨f1, f2, f3, f4, f5, f6, f7, f8, f9⟩ :=
      applyInner_spec env _ t d0 s0 e0 hap
    dsimp only at f3
    exact ⟨by dsimp only; rw [f3], rfl, ⟨d0, rfl, rfl⟩⟩

/-! ### Claims -/

/-- C1, counterexample: for `c1Doc` (text "hello", a resolved path, a
language server attached, empty pending accumulator) and the non-empty
transaction `c1Bad` whose `len_before` of 3 differs from the text length
5, `apply` does return failure — but a change notification IS delivered,
the mismatched ChangeSet IS composed into the pending accumulator, and
`old_state` IS overwritten, refuting the claim that no notification is
sent and nothing is composed.  (In `_apply` and `apply`, both fan-out
steps and the composition are gated only on the ChangeSet being
non-empty, never on the validation result.) -/
theorem c1_counterexample :
    Document.apply exEnv c1Doc c1Bad = some (c1Result, false, [Effect.lspNotify 0]) ∧
    c1Result.changes ≠ c1Doc.changes ∧
    c1Result.old_state ≠ c1Doc.old_state :=
  ⟨rfl, by decide, by decide⟩

/-- C1 (amended): when the ChangeSet's `len_before` differs from the
current text length and the ChangeSet is non-empty, then whenever
`apply` returns at all, it returns failure with Text and Selection
untouched — but the syntax-tree update and the language-server
notification are still attempted (on every returning call with a server
attached a notification is delivered; a pathless document with a server
does not return: it panics in `versioned_identifier` while building the
notification) and the ChangeSet is still composed into the
pending-changes accumulator. -/
theorem c1_len_mismatch_rejected_but_effects_remain (env : Collab) (doc : Document)
    (t : Transaction) (hlen : t.changes.len ≠ doc.state.doc.length)
    (hne : t.changes.is_empty = false)
    (d : Document) (s : Bool) (effs : List Effect)
    (h : Document.apply env doc t = some (d, s, effs)) :
    s = false ∧ d.state = doc.state ∧
    d.changes = doc.changes.compose t.changes ∧
    (doc.language_server.isSome → Effect.lspNotify doc.version ∈ effs) := by
  obtain ⟨f1, _, _, _, _, f6, f7, _, f9⟩ := apply_spec env doc t d s effs h
  have hap : t.apply doc.state = none := by
    unfold Transaction.apply
    rw [if_neg hlen]
  refine ⟨by rw [f6, hap]; rfl, by rw [f7, hap]; rfl, ?_, fun hs => f9 hne hs⟩
  rw [f1, if_neg (by simp [hne])]

/-- C1 (amended) at the concrete counterexample input. -/
theorem c1_len_mismatch_witness :
    false = false ∧ c1Result.state = c1Doc.state ∧
    c1Result.changes = c1Doc.changes.compose c1Bad.changes ∧
    (c1Doc.language_server.isSome → Effect.lspNotify c1Doc.version ∈ [Effect.lspNotify 0]) :=
  c1_len_mismatch_rejected_but_effects_remain exEnv c1Doc c1Bad (by decide) (by decide)
    c1Result false [Effect.lspNotify 0] (by decide)

/-- C2, code bug: with a syntax tree attached and a non-empty
transaction, a failing incremental syntax-tree update does NOT leave the
buffer mutation standing with the failure reported — `_apply` panics
(`syntax.update(...).unwrap()`, marked `TODO: no unwrap` in the source)
and no value is returned at all, modelled as `none`. -/
theorem c2_syntax_update_failure_panics :
    Document._apply { synOk := false, lspOk := true } c2Doc exIns = none :=
  rfl

/-- C3, code bug: with a language server attached and a non-empty
transaction, an unacknowledged change notification is NOT surfaced as a
warning-level condition — `_apply` panics
(`smol::block_on(notify).expect("failed to emit textDocument/didChange")`)
and no value is returned at all, modelled as `none`. -/
theorem c3_notify_failure_panics :
    Document._apply { synOk := true, lspOk := false } c3Doc exIns = none :=
  rfl

/-- C4: whenever History yields a transaction to undo (respectively
redo), `undo()` (respectively `redo()`) increments `version` by exactly
one, runs that transaction through the same `_apply` path as ordinary
edits, and leaves the pending-changes accumulator equal to the empty
ChangeSet over the document's current text. -/
theorem c4_undo_redo_commit_point :
    (∀ (env : Collab) (doc : Document) (t : Transaction) (h' : History)
      (r : Document × Bool × List Effect),
      doc.history.undo = some (t, h') → Document.undo env doc = some r →
        r.1.version = doc.version + 1 ∧
        r.1.changes = ChangeSet.new r.1.state.doc ∧
        ∃ d0, Document._apply env { doc with history := h', version := doc.version + 1 } t
            = some (d0, r.2.1, r.2.2) ∧
          r.1 = { d0 with changes := ChangeSet.new d0.state.doc }) ∧
    (∀ (env : Collab) (doc : Document) (t : Transaction) (h' : History)
      (r : Document × Bool × List Effect),
      doc.history.redo = some (t, h') → Document.redo env doc = some r →
        r.1.version = doc.version + 1 ∧
        r.1.changes = ChangeSet.new r.1.state.doc ∧
        ∃ d0, Document._apply env { doc with history := h', version := doc.version + 1 } t
            = some (d0, r.2.1, r.2.2) ∧
          r.1 = { d0 with changes := ChangeSet.new d0.state.doc }) :=
  ⟨fun env doc t h' r hu hr => undo_spec env doc t h' hu r hr,
   fun env doc t h' r hu hr => redo_spec env doc t h' hu r hr⟩

/-- C4 at the concrete `histDoc`, which offers both an undo and a redo. -/
theorem c4_undo_redo_witness :
    (uRes.1.version = histDoc.version + 1 ∧
     uRes.1.changes = ChangeSet.new uRes.1.state.doc ∧
     ∃ d0, Document._apply exEnv { histDoc with history := uH, version := histDoc.version + 1 } exDel
         = some (d0, uRes.2.1, uRes.2.2) ∧
       uRes.1 = { d0 with changes := ChangeSet.new d0.state.doc }) ∧
    (rRes.1.version = histDoc.version + 1 ∧
     rRes.1.changes = ChangeSet.new rRes.1.state.doc ∧
     ∃ d0, Document._apply exEnv { histDoc with history := rH, version := histDoc.version + 1 } exIns
         = some (d0, rRes.2.1, rRes.2.2) ∧
       rRes.1 = { d0 with changes := ChangeSet.new d0.state.doc }) :=
  ⟨c4_undo_redo_commit_point.1 exEnv histDoc exDel uH uRes (by decide) (by decide),
   c4_undo_redo_commit_point.2 exEnv histDoc exIns rH rRes (by decide) (by decide)⟩

/-- C5: two sequential `apply` calls with non-empty ChangeSets and no
intervening undo/redo leave the pending-changes accumulator equal to the
starting accumulator composed with the first ChangeSet and then with the
second. -/
theorem c5_sequential_edits_compose (env1 env2 : Collab) (doc : Document)
    (t1 t2 : Transaction)
    (h1 : t1.changes.is_empty = false) (h2 : t2.changes.is_empty = false)
    (d1 : Document) (s1 : Bool) (e1 : List Effect)
    (ha : Document.apply env1 doc t1 = some (d1, s1, e1))
    (d2 : Document) (s2 : Bool) (e2 : List Effect)
    (hb : Document.apply env2 d1 t2 = some (d2, s2, e2)) :
    d2.changes = (doc.changes.compose t1.changes).compose t2.changes := by
  obtain ⟨fa1, _⟩ := apply_spec env1 doc t1 d1 s1 e1 ha
  obtain ⟨fb1, _⟩ := apply_spec env2 d1 t2 d2 s2 e2 hb
  rw [fb1, if_neg (by simp [h2]), fa1, if_neg (by simp [h1])]

/-- C5 at a concrete pair of insertions on `aDoc`. -/
theorem c5_sequential_edits_witness :
    d2Doc.changes = (aDoc.changes.compose exIns.changes).compose exIns.changes :=
  c5_sequential_edits_compose exEnv exEnv aDoc exIns exIns (by decide) (by decide)
    d1Doc true [] (by decide) d2Doc false [] (by decide)

/-- C6: `apply` snapshots the pre-edit State into `old_state` exactly
when the pending accumulator is empty and the transaction's ChangeSet is
non-empty; in every other case `old_state` is left unchanged. -/
theorem c6_old_state_snapshot (env : Collab) (doc : Document) (t : Transaction)
    (d : Document) (s : Bool) (effs : List Effect)
    (h : Document.apply env doc t = some (d, s, effs)) :
    d.old_state =
      (if doc.changes.is_empty && !t.changes.is_empty then some doc.state
       else doc.old_state) :=
  (apply_spec env doc t d s effs h).2.1

/-- C6 at the concrete first edit on `aDoc` (accumulator empty, ChangeSet
non-empty: the snapshot is taken). -/
theorem c6_old_state_witness :
    d1Doc.old_state =
      (if aDoc.changes.is_empty && !exIns.changes.is_empty then some aDoc.state
       else aDoc.old_state) :=
  c6_old_state_snapshot exEnv aDoc exIns d1Doc true [] (by decide)

/-- C7, counterexample: `c7Doc` has a one-character text and a valid
selection, yet `set_selection` with a range at offset 9 leaves the
document with a Selection whose offsets exceed the text length —
refuting that `set_selection` preserves the selection-validity
invariant. -/
theorem c7_counterexample :
    Selection.validFor c7Doc.state.selection c7Doc.state.doc ∧
    ¬ Selection.validFor
        (c7Doc.set_selection (Selection.single 9 9)).state.selection
        (c7Doc.set_selection (Selection.single 9 9)).state.doc :=
  ⟨by decide, by decide⟩

/-- C7 (amended): `set_selection` stores the given Selection verbatim,
without any validation or clamping against the current Text (which it
leaves unchanged); the validity invariant therefore holds only if the
caller passes a Selection that is valid for the current Text. -/
theorem c7_set_selection_verbatim (doc : Document) (sel : Selection) :
    (doc.set_selection sel).state.selection = sel ∧
    (doc.set_selection sel).state.doc = doc.state.doc :=
  ⟨rfl, rfl⟩

/-- C8: `load` either returns an error or returns a Document whose
`path` is `Some` of the canonical form of the given path (as answered by
the filesystem); it never returns a Document without a path set. -/
theorem c8_load_sets_canonical_path (fs : FS) (path : String) (scopes : List String)
    (d : Document) (h : Document.load fs path scopes = Except.ok d) :
    ∃ abs, fs.canonical path = some abs ∧ d.path = some abs := by
  unfold Document.load at h
  cases hc : fs.cwd with
  | none => rw [hc] at h; exact absurd h (by simp)
  | some c =>
    rw [hc] at h
    dsimp only at h
    cases hr : fs.read path with
    | none => rw [hr] at h; exact absurd h (by simp)
    | some text =>
      rw [hr] at h
      dsimp only at h
      cases hl : fs.langScopeFor path with
      | none =>
        rw [hl] at h
        dsimp only at h
        cases hcan : fs.canonical path with
        | none => rw [hcan] at h; exact absurd h (by simp)
        | some abs =>
          rw [hcan] at h
          dsimp only at h
          simp only [Except.ok.injEq] at h
          subst h
          exact ⟨abs, rfl, rfl⟩
      | some scope =>
        rw [hl] at h
        dsimp only at h
        cases hcan : fs.canonical path with
        | none => rw [hcan] at h; exact absurd h (by simp)
        | some abs =>
          rw [hcan] at h
          dsimp only at h
          simp only [Except.ok.injEq] at h
          subst h
          exact ⟨abs, rfl, rfl⟩

/-- C8 at a concrete filesystem on which every load step succeeds. -/
theorem c8_load_witness :
    ∃ abs, exFS.canonical relPath = some abs ∧ exLoaded.path = some abs :=
  c8_load_sets_canonical_path exFS relPath [] exLoaded (by rfl)

/-- C9, code bug: `save()` on a Document with no path does NOT return an
error result — it panics
(`self.path.clone().expect("Can't save with no path set!")`, marked
`TODO: handle no path` in the source) before any future is produced,
modelled as `none`. -/
theorem c9_save_without_path_panics :
    aDoc.save = none :=
  rfl

/-- C10: `apply` leaves the `version` counter unchanged (the commented
out bump in `_apply` confirms the intent), every change notification it
emits carries that unchanged version, and `version` is incremented
(by one) exactly by `undo()` and `redo()` when History yields a
transaction. -/
theorem c10_version_only_history_ops :
    (∀ (env : Collab) (doc : Document) (t : Transaction)
      (r : Document × Bool × List Effect),
      Document.apply env doc t = some r →
        r.1.version = doc.version ∧
        ∀ v, Effect.lspNotify v ∈ r.2.2 → v = doc.version) ∧
    (∀ (env : Collab) (doc : Document) (t : Transaction) (h' : History)
      (r : Document × Bool × List Effect),
      doc.history.undo = some (t, h') → Document.undo env doc = some r →
        r.1.version = doc.version + 1) ∧
    (∀ (env : Collab) (doc : Document) (t : Transaction) (h' : History)
      (r : Document × Bool × List Effect),
      doc.history.redo = some (t, h') → Document.redo env doc = some r →
        r.1.version = doc.version + 1) := by
  refine ⟨?_, ?_, ?_⟩
  · intro env doc t r h
    obtain ⟨d, s, e⟩ := r
    obtain ⟨_, _, f3, _, _, _, _, f8, _⟩ := apply_spec env doc t d s e h
    exact ⟨f3, f8⟩
  · intro env doc t h' r hu hr
    exact (undo_spec env doc t h' hu r hr).1
  · intro env doc t h' r hu hr
    exact (redo_spec env doc t h' hu r hr).1

/-- C10 at concrete inputs: an ordinary edit keeps version 0, an undo
and a redo on `histDoc` each bump it to 1. -/
theorem c10_version_witness :
    (d1Doc.version = aDoc.version ∧
      ∀ v, Effect.lspNotify v ∈ ([] : List Effect) → v = aDoc.version) ∧
    uRes.1.version = histDoc.version + 1 ∧
    rRes.1.version = histDoc.version + 1 :=
  ⟨c10_version_only_history_ops.1 exEnv aDoc exIns
      ((d1Doc, true, ([] : List Effect)) : Document × Bool × List Effect) (by decide),
   (c10_version_only_history_ops.2.1 exEnv histDoc exDel uH uRes (by decide) (by decide)),
   (c10_version_only_history_ops.2.2 exEnv histDoc exIns rH rRes (by decide) (by decide))⟩

end Helix
